import Mathlib

/-!
# GoRedis `storage.SafeList`

A shallow embedding of `goredis_server/storage/safe_list.go`.

`SafeList` wraps a `container/list` doubly linked list.  The linked list is
embedded as the Lean list of its element values, front to back.  Every method
is a function from the state before the call to the pair of its Go result and
the state after the call.  A Go `interface{}` result that may be `nil` is an
`Option`; a call that may panic returns an `Except`.

The methods are embedded as they run in one goroutine.  `SafeList` holds the
sequence alone: the mutex is free on entry and free again on return, so it
carries no information between calls.  `GuardedSafeList` adds the mutex as a
held/free flag and embeds each method with its `Lock` and `Unlock` calls around
the same body.
-/

namespace GoRedis

/-! ## Machine integers -/

/-- Smallest value of Go's `int` on a 64-bit platform. -/
def minInt : Int := -9223372036854775808

/-- Largest value of Go's `int` on a 64-bit platform. -/
def maxInt : Int := 9223372036854775807

/-- Two's-complement wrap-around of a mathematical integer into Go's 64-bit
`int`: the value every `+` and `-` on `int` really produces. -/
def wrapInt (x : Int) : Int := (x + 9223372036854775808) % 18446744073709551616 - 9223372036854775808

/-- Go's `a - b` on `int`. -/
def intSub (a b : Int) : Int := wrapInt (a - b)

/-- Go's `a + b` on `int`. -/
def intAdd (a b : Int) : Int := wrapInt (a + b)

/-! ## Runtime panics -/

/-- The run-time panics the embedded code can raise. -/
inductive Panic where
  /-- Raised by `make([]T, len, cap)` with a capacity out of range. -/
  | makesliceCapOutOfRange
  deriving DecidableEq, Repr

/-- Go's `make([]interface{}, 0, cap)` as far as the sign of the capacity
decides it: a negative capacity panics, any other gives the empty slice.  The
run-time also panics on a capacity above the platform's allocation limit; that
limit is not embedded, so `ok` here says only that the capacity is not
negative.  `Range` is stated to return only where the capacity it asks for is
at most the length of the list it scans. -/
def makeSlice (α : Type) (cap : Int) : Except Panic (List α) :=
  if cap < 0 then Except.error Panic.makesliceCapOutOfRange else Except.ok []

/-! ## `container/list` -/

/-- Value of `l.Front()`: the first element, `nil` on an empty list. -/
def listFront {α : Type} (l : List α) : Option α := l.head?

/-- Value of `l.Back()`: the last element, `nil` on an empty list. -/
def listBack {α : Type} (l : List α) : Option α := l.getLast?

/-- The list after `l.Remove(l.Front())`. -/
def listRemoveFront {α : Type} (l : List α) : List α := l.tail

/-- The list after `l.Remove(l.Back())`. -/
def listRemoveBack {α : Type} (l : List α) : List α := l.dropLast

/-- The list after `l.PushFront(v)`. -/
def listPushFront {α : Type} (l : List α) (v : α) : List α := v :: l

/-- The list after `l.PushBack(v)`. -/
def listPushBack {α : Type} (l : List α) (v : α) : List α := l ++ [v]

/-- Value of `l.Len()`.  The element count of a list in memory is below
`2 ^ 63`, so the `int` result is the count itself. -/
def listLen {α : Type} (l : List α) : Int := (l.length : Int)

/-! ## `SafeList` -/

/-- The state of a `SafeList`: the values held by `innerList`, front to back. -/
structure SafeList (α : Type) where
  innerList : List α
  deriving DecidableEq, Repr

namespace SafeList

variable {α : Type}

/-- Embeds `NewSafeList`: `list.New()` is the empty list. -/
def NewSafeList : SafeList α := ⟨[]⟩

/-- Embeds `(*SafeList).LPop`: `value` stays `nil` on an empty list; otherwise
it is the front element's value and that element is removed. -/
def LPop (sl : SafeList α) : Option α × SafeList α :=
  match listFront sl.innerList with
  | none => (none, sl)
  | some v => (some v, ⟨listRemoveFront sl.innerList⟩)

/-- Embeds `(*SafeList).RPop`: as `LPop`, at the back. -/
def RPop (sl : SafeList α) : Option α × SafeList α :=
  match listBack sl.innerList with
  | none => (none, sl)
  | some v => (some v, ⟨listRemoveBack sl.innerList⟩)

/-- The loop `for _, value := range values { innerList.PushFront(value) }`. -/
def LPush.loop (l : List α) : List α → List α
  | [] => l
  | value :: values => LPush.loop (listPushFront l value) values

/-- Embeds `(*SafeList).LPush`: pushes each value at the front in turn, then
returns `innerList.Len()`. -/
def LPush (sl : SafeList α) (values : List α) : Int × SafeList α :=
  let inner := LPush.loop sl.innerList values
  (listLen inner, ⟨inner⟩)

/-- The loop `for _, value := range values { innerList.PushBack(value) }`. -/
def RPush.loop (l : List α) : List α → List α
  | [] => l
  | value :: values => RPush.loop (listPushBack l value) values

/-- Embeds `(*SafeList).RPush`: pushes each value at the back in turn, then
returns `innerList.Len()`. -/
def RPush (sl : SafeList α) (values : List α) : Int × SafeList α :=
  let inner := RPush.loop sl.innerList values
  (listLen inner, ⟨inner⟩)

/-- Embeds `(*SafeList).Len`. -/
def Len (sl : SafeList α) : Int × SafeList α :=
  (listLen sl.innerList, sl)

/-- The scan of `Index`: `e` is the part of the list from the current element
on, `i` the counter.  `value` stays `nil` when the scan runs off the end.  The
counter never exceeds the element count, so `i++` does not wrap. -/
def Index.loop (index : Int) : List α → Int → Option α
  | [], _ => none
  | v :: e, i => if i = index then some v else Index.loop index e (i + 1)

/-- Embeds `(*SafeList).Index`. -/
def Index (sl : SafeList α) (index : Int) : Option α × SafeList α :=
  (Index.loop index sl.innerList 0, sl)

/-- The guard of `Range` that returns the empty slice at once:
`start >= length || end < start`. -/
def Range.isEmpty (length start end_ : Int) : Bool :=
  decide (start ≥ length) || decide (end_ < start)

/-- The capacity `Range` computes for its result:
`end - start + 1` when `length > end`, else `length - start`, in `int`
arithmetic. -/
def Range.resultsize (length start end_ : Int) : Int :=
  if length > end_ then intAdd (intSub end_ start) 1 else intSub length start

/-- The filling scan of `Range`: `e` is the part of the list from the current
element on, `i` the counter, `values` the slice built so far.  The counter
never exceeds the element count, so `i++` does not wrap. -/
def Range.fill (start end_ : Int) : List α → Int → List α → List α
  | [], _, values => values
  | v :: e, i, values =>
      Range.fill start end_ e (i + 1) (if i ≥ start ∧ i ≤ end_ then values ++ [v] else values)

/-- Embeds `(*SafeList).Range`. -/
def Range (sl : SafeList α) (start end_ : Int) : Except Panic (List α) × SafeList α :=
  let length := listLen sl.innerList
  if Range.isEmpty length start end_ then
    (makeSlice α 0, sl)
  else
    match makeSlice α (Range.resultsize length start end_) with
    | Except.error p => (Except.error p, sl)
    | Except.ok values => (Except.ok (Range.fill start end_ sl.innerList 0 values), sl)

end SafeList

/-! ## `SafeList` with its mutex -/

/-- State of a `sync.Mutex`: whether it is held, and how many `Lock` calls
have acquired it so far. -/
structure Mutex where
  held : Bool
  acquisitions : Nat
  deriving DecidableEq, Repr

/-- Embeds `m.Lock()` as one goroutine sees it: a free mutex becomes held; on a
held mutex the call blocks and never returns, so there is no state after it. -/
def Mutex.Lock (m : Mutex) : Option Mutex :=
  if m.held then none else some ⟨true, m.acquisitions + 1⟩

/-- Embeds `m.Unlock()`: a held mutex becomes free; unlocking a free mutex is a
fatal run-time error, so there is no state after it. -/
def Mutex.Unlock (m : Mutex) : Option Mutex :=
  if m.held then some ⟨false, m.acquisitions⟩ else none

/-- The state of a `SafeList` with both of its fields. -/
structure GuardedSafeList (α : Type) where
  innerList : List α
  mutex : Mutex
  deriving DecidableEq, Repr

namespace GuardedSafeList

variable {α β : Type}

/-- The shape shared by every method: `sl.mutex.Lock()`, then the statements
between the two calls (`body`, on `innerList`), then `sl.mutex.Unlock()`, then
the return of the body's result.  The result is `none` when a step never
completes. -/
def critical (g : GuardedSafeList α) (body : SafeList α → β × SafeList α) :
    Option (β × GuardedSafeList α) :=
  match g.mutex.Lock with
  | none => none
  | some locked =>
    let r := body ⟨g.innerList⟩
    match locked.Unlock with
    | none => none
    | some released => some (r.1, ⟨r.2.innerList, released⟩)

/-- Embeds `NewSafeList` with the mutex: an empty list and a fresh, free
mutex. -/
def NewSafeList : GuardedSafeList α := ⟨[], ⟨false, 0⟩⟩

/-- Embeds `(*SafeList).LPop` with `Lock` first and `Unlock` before `return`. -/
def LPop (g : GuardedSafeList α) : Option (Option α × GuardedSafeList α) :=
  g.critical SafeList.LPop

/-- Embeds `(*SafeList).RPop` with `Lock` first and `Unlock` before `return`. -/
def RPop (g : GuardedSafeList α) : Option (Option α × GuardedSafeList α) :=
  g.critical SafeList.RPop

/-- Embeds `(*SafeList).LPush` with `Lock` first and `Unlock` before `return`. -/
def LPush (g : GuardedSafeList α) (values : List α) : Option (Int × GuardedSafeList α) :=
  g.critical (fun sl => SafeList.LPush sl values)

/-- Embeds `(*SafeList).RPush` with `Lock` first and `Unlock` before `return`. -/
def RPush (g : GuardedSafeList α) (values : List α) : Option (Int × GuardedSafeList α) :=
  g.critical (fun sl => SafeList.RPush sl values)

/-- Embeds `(*SafeList).Len` with `Lock` first and `Unlock` before `return`. -/
def Len (g : GuardedSafeList α) : Option (Int × GuardedSafeList α) :=
  g.critical SafeList.Len

/-- Embeds `(*SafeList).Index` with `Lock` first and `Unlock` after the scan:
the `break` inside the scan leaves the loop only, so the `Unlock` that follows
the loop runs whether or not the position was found. -/
def Index (g : GuardedSafeList α) (index : Int) : Option (Option α × GuardedSafeList α) :=
  g.critical (fun sl => SafeList.Index sl index)

/-- Embeds `(*SafeList).Range` with `Lock` first and `defer Unlock`: the
deferred call runs when the function is left, by the early `return`, by the
final `return`, or by the panic of `make`. -/
def Range (g : GuardedSafeList α) (start end_ : Int) :
    Option (Except Panic (List α) × GuardedSafeList α) :=
  g.critical (fun sl => SafeList.Range sl start end_)

end GuardedSafeList

/-! ## Sequences of calls -/

namespace SafeList

variable {α : Type}

/-- One call on a `SafeList`, with its arguments. -/
inductive Op (α : Type) where
  | lpush (values : List α)
  | rpush (values : List α)
  | lpop
  | rpop
  | len
  | index (index : Int)
  | range (start end_ : Int)
  deriving Repr

/-- Runs one call: the state after it, the number of values it was given to
push, and the number of values it popped (1 for a pop that returned a value,
0 for a pop that returned `nil`).  A `Range` that panics leaves the state as
every `Range` does. -/
def Op.run (sl : SafeList α) : Op α → SafeList α × Nat × Nat
  | Op.lpush values => ((LPush sl values).2, values.length, 0)
  | Op.rpush values => ((RPush sl values).2, values.length, 0)
  | Op.lpop => ((LPop sl).2, 0, if (LPop sl).1.isSome then 1 else 0)
  | Op.rpop => ((RPop sl).2, 0, if (RPop sl).1.isSome then 1 else 0)
  | Op.len => ((Len sl).2, 0, 0)
  | Op.index i => ((Index sl i).2, 0, 0)
  | Op.range s e => ((Range sl s e).2, 0, 0)

/-- Runs a history of calls in order: the final state, the total number `N` of
values passed to pushes, and the number `M` of pops that returned a value. -/
def runHistory (sl : SafeList α) : List (Op α) → SafeList α × Nat × Nat
  | [] => (sl, 0, 0)
  | op :: ops =>
    let first := Op.run sl op
    let later := runHistory first.1 ops
    (later.1, first.2.1 + later.2.1, first.2.2 + later.2.2)

/-- Successive `RPush` calls, one per batch, in call order. -/
def RPushAll (sl : SafeList α) : List (List α) → SafeList α
  | [] => sl
  | batch :: batches => RPushAll (RPush sl batch).2 batches

/-- Successive single-value `LPush` calls, one per value, in order. -/
def LPushEach (sl : SafeList α) : List α → SafeList α
  | [] => sl
  | value :: values => LPushEach (LPush sl [value]).2 values

/-- The results of `k` successive `LPop` calls, in call order, and the state
after them. -/
def LPopN : Nat → SafeList α → List (Option α) × SafeList α
  | 0, sl => ([], sl)
  | k + 1, sl =>
    let first := LPop sl
    let later := LPopN k first.2
    (first.1 :: later.1, later.2)

end SafeList

/-! ## Specification-side definitions -/

/-- The result length the specification states for `RangeView`: `0` if
`start ≥ length` or `end < start`; `length - start` if `end ≥ length`;
otherwise `end - start + 1`. -/
def rangePolicyLength (length start end_ : Int) : Int :=
  if start ≥ length ∨ end_ < start then 0
  else if end_ ≥ length then length - start
  else end_ - start + 1

/-! ## Lemmas on the loops -/

namespace SafeList

variable {α : Type}

theorem RPush_loop_eq (values l : List α) : RPush.loop l values = l ++ values := by
  induction values generalizing l with
  | nil => simp [RPush.loop]
  | cons v vs ih => simp [RPush.loop, listPushBack, ih]

theorem LPush_loop_eq (values l : List α) : LPush.loop l values = values.reverse ++ l := by
  induction values generalizing l with
  | nil => simp [LPush.loop]
  | cons v vs ih => simp [LPush.loop, listPushFront, ih]

theorem Index_loop_eq (index : Int) (e : List α) (i : Int) :
    Index.loop index e i = if i ≤ index then e[(index - i).toNat]? else none := by
  induction e generalizing i with
  | nil => simp [Index.loop]
  | cons v e ih =>
    unfold Index.loop
    by_cases h : i = index
    · subst h
      simp
    · rw [if_neg h, ih]
      by_cases hle : i ≤ index
      · have hlt : i + 1 ≤ index := by omega
        have hk : (index - i).toNat = (index - (i + 1)).toNat + 1 := by omega
        rw [if_pos hlt, if_pos hle, hk, List.getElem?_cons_succ]
      · have hlt : ¬ i + 1 ≤ index := by omega
        rw [if_neg hlt, if_neg hle]

theorem Range_fill_eq (start end_ : Int) (e : List α) (i : Int) (values : List α) :
    Range.fill start end_ e i values =
      values ++ (e.drop (start - i).toNat).take (end_ - max start i + 1).toNat := by
  induction e generalizing i values with
  | nil => simp [Range.fill]
  | cons v e ih =>
    unfold Range.fill
    rw [ih]
    by_cases hs : i ≥ start
    · by_cases he : i ≤ end_
      · have h1 : (start - (i + 1)).toNat = 0 := by omega
        have h2 : (start - i).toNat = 0 := by omega
        have h3 : (end_ - max start i + 1).toNat = (end_ - max start (i + 1) + 1).toNat + 1 := by
          omega
        rw [if_pos ⟨hs, he⟩, h1, h2, h3]
        simp
      · have h1 : (start - (i + 1)).toNat = 0 := by omega
        have h2 : (start - i).toNat = 0 := by omega
        have h3 : (end_ - max start i + 1).toNat = 0 := by omega
        have h4 : (end_ - max start (i + 1) + 1).toNat = 0 := by omega
        rw [if_neg (fun h => he h.2), h1, h2, h3, h4]
        simp
    · have h1 : (start - i).toNat = (start - (i + 1)).toNat + 1 := by omega
      have h2 : max start (i + 1) = max start i := by omega
      rw [if_neg (fun h => hs h.1), h1, h2]
      simp

theorem wrapInt_eq_self (x : Int) (h0 : -9223372036854775808 ≤ x)
    (h1 : x < 9223372036854775808) : wrapInt x = x := by
  unfold wrapInt
  omega

theorem Range_isEmpty_eq_true (sl : SafeList α) (start end_ : Int)
    (h : Range.isEmpty (listLen sl.innerList) start end_ = true) :
    (Range sl start end_).1 = Except.ok [] := by
  simp [Range, h, makeSlice]

theorem Range_isEmpty_eq_false (sl : SafeList α) (start end_ : Int)
    (h : Range.isEmpty (listLen sl.innerList) start end_ = false) :
    (Range sl start end_).1 =
      if Range.resultsize (listLen sl.innerList) start end_ < 0
      then Except.error Panic.makesliceCapOutOfRange
      else Except.ok ((sl.innerList.drop start.toNat).take (end_ - max start 0 + 1).toNat) := by
  simp only [Range, h, makeSlice]
  by_cases hneg : Range.resultsize (listLen sl.innerList) start end_ < 0
  · simp [hneg]
  · simp [hneg, Range_fill_eq]

theorem Range_eq_of_ok (sl : SafeList α) (start end_ : Int) (r : List α)
    (h : (Range sl start end_).1 = Except.ok r) :
    r = (sl.innerList.drop start.toNat).take (end_ - max start 0 + 1).toNat := by
  cases hemp : Range.isEmpty (listLen sl.innerList) start end_ with
  | true =>
    rw [Range_isEmpty_eq_true sl start end_ hemp] at h
    injection h with h
    subst h
    simp only [Range.isEmpty, listLen, Bool.or_eq_true, decide_eq_true_eq] at hemp
    by_cases hs : start ≥ (sl.innerList.length : Int)
    · have hd : sl.innerList.drop start.toNat = [] := List.drop_of_length_le (by omega)
      simp [hd]
    · have ht : (end_ - max start 0 + 1).toNat = 0 := by omega
      simp [ht]
  | false =>
    rw [Range_isEmpty_eq_false sl start end_ hemp] at h
    by_cases hneg : Range.resultsize (listLen sl.innerList) start end_ < 0
    · rw [if_pos hneg] at h
      cases h
    · rw [if_neg hneg] at h
      injection h with h
      exact h.symm

theorem Range_resultsize_of_nonneg (n start end_ : Int) (hstart : 0 ≤ start)
    (hn : n < 9223372036854775808) (hemp : Range.isEmpty n start end_ = false) :
    Range.resultsize n start end_ = (if n > end_ then end_ - start + 1 else n - start) ∧
    0 < Range.resultsize n start end_ := by
  simp only [Range.isEmpty, Bool.or_eq_false_iff, decide_eq_false_iff_not] at hemp
  obtain ⟨h1, h2⟩ := hemp
  unfold Range.resultsize intAdd intSub
  by_cases hgt : n > end_
  · have e1 : wrapInt (end_ - start) = end_ - start := wrapInt_eq_self _ (by omega) (by omega)
    have e2 : wrapInt (end_ - start + 1) = end_ - start + 1 :=
      wrapInt_eq_self _ (by omega) (by omega)
    rw [if_pos hgt, if_pos hgt, e1, e2]
    exact ⟨rfl, by omega⟩
  · have e1 : wrapInt (n - start) = n - start := wrapInt_eq_self _ (by omega) (by omega)
    rw [if_neg hgt, if_neg hgt, e1]
    exact ⟨rfl, by omega⟩

theorem Range_ok_of_nonneg (sl : SafeList α) (start end_ : Int) (hstart : 0 ≤ start)
    (hlen : (sl.innerList.length : Int) < 9223372036854775808) :
    (Range sl start end_).1 =
      Except.ok ((sl.innerList.drop start.toNat).take (end_ - start + 1).toNat) := by
  have hmax : max start 0 = start := by omega
  cases hemp : Range.isEmpty (listLen sl.innerList) start end_ with
  | true =>
    have h := Range_isEmpty_eq_true sl start end_ hemp
    have hr := Range_eq_of_ok sl start end_ [] h
    rw [hmax] at hr
    rw [h, hr]
  | false =>
    have hpos := (Range_resultsize_of_nonneg (listLen sl.innerList) start end_ hstart
      (by simpa [listLen] using hlen) hemp).2
    rw [Range_isEmpty_eq_false sl start end_ hemp, if_neg (by omega), hmax]

theorem Range_state_eq (sl : SafeList α) (start end_ : Int) :
    (Range sl start end_).2 = sl := by
  simp only [Range]
  split
  · rfl
  · split <;> rfl

theorem LPop_length (sl : SafeList α) :
    (LPop sl).2.innerList.length + (if (LPop sl).1.isSome then 1 else 0) =
      sl.innerList.length := by
  obtain ⟨l⟩ := sl
  cases l with
  | nil => rfl
  | cons x rest => simp [LPop, listFront, listRemoveFront]

theorem RPop_length (sl : SafeList α) :
    (RPop sl).2.innerList.length + (if (RPop sl).1.isSome then 1 else 0) =
      sl.innerList.length := by
  obtain ⟨l⟩ := sl
  rcases List.eq_nil_or_concat l with h | ⟨init, x, h⟩
  · subst h
    rfl
  · subst h
    simp [RPop, listBack, listRemoveBack]

theorem Op_run_length (sl : SafeList α) (op : Op α) :
    (Op.run sl op).1.innerList.length + (Op.run sl op).2.2 =
      sl.innerList.length + (Op.run sl op).2.1 := by
  cases op with
  | lpush values => simp [Op.run, LPush, LPush_loop_eq]; omega
  | rpush values => simp [Op.run, RPush, RPush_loop_eq]
  | lpop => simpa [Op.run] using LPop_length sl
  | rpop => simpa [Op.run] using RPop_length sl
  | len => simp [Op.run, Len]
  | index i => simp [Op.run, Index]
  | range s e => simp [Op.run, Range_state_eq]

theorem runHistory_length (ops : List (Op α)) (sl : SafeList α) :
    (runHistory sl ops).1.innerList.length + (runHistory sl ops).2.2 =
      sl.innerList.length + (runHistory sl ops).2.1 := by
  induction ops generalizing sl with
  | nil => simp [runHistory]
  | cons op ops ih =>
    have h1 := Op_run_length sl op
    have h2 := ih (Op.run sl op).1
    simp only [runHistory]
    omega

theorem RPushAll_eq (batches : List (List α)) (sl : SafeList α) :
    (RPushAll sl batches).innerList = sl.innerList ++ batches.flatten := by
  induction batches generalizing sl with
  | nil => simp [RPushAll]
  | cons batch batches ih => simp [RPushAll, ih, RPush, RPush_loop_eq]

theorem LPushEach_eq (values : List α) (sl : SafeList α) :
    LPushEach sl values = ⟨values.reverse ++ sl.innerList⟩ := by
  induction values generalizing sl with
  | nil => simp [LPushEach]
  | cons v values ih => simp [LPushEach, ih, LPush, LPush.loop, listPushFront]

theorem LPopN_eq (l : List α) :
    LPopN l.length ⟨l⟩ = (l.map some, ⟨[]⟩) := by
  induction l with
  | nil => rfl
  | cons x rest ih => simp [LPopN, LPop, listFront, listRemoveFront, ih]

theorem Range_resultsize_single (n i : Int) (h : i < n) : Range.resultsize n i i = 1 := by
  unfold Range.resultsize intAdd intSub
  rw [if_pos h, sub_self]
  decide

/-! ## Push and pop -/

/-- C1: `RPush` appends the batch in order: the sequence afterwards is the old
sequence followed by the values as given, the returned integer is the old
length plus the batch length, and `Len` right afterwards returns the same. -/
theorem RPush_appends_in_order (sl : SafeList α) (values : List α) :
    (RPush sl values).2.innerList = sl.innerList ++ values ∧
    (RPush sl values).1 = (sl.innerList.length : Int) + (values.length : Int) ∧
    (Len (RPush sl values).2).1 = (RPush sl values).1 := by
  simp [RPush, Len, listLen, RPush_loop_eq]

/-- C2: `LPush` prepends the batch reversed: the sequence afterwards is the
reversed batch followed by the old sequence unchanged, the returned integer is
the old length plus the batch length; `LPush [a, b, c]` on the empty sequence
gives `[c, b, a]` and returns 3. -/
theorem LPush_prepends_reversed (sl : SafeList α) (values : List α) :
    (LPush sl values).2.innerList = values.reverse ++ sl.innerList ∧
    (LPush sl values).1 = (sl.innerList.length : Int) + (values.length : Int) ∧
    (∀ a b c : α, LPush NewSafeList [a, b, c] = (3, ⟨[c, b, a]⟩)) := by
  refine ⟨?_, ?_, ?_⟩
  · simp [LPush, LPush_loop_eq]
  · simp [LPush, listLen, LPush_loop_eq]
    omega
  · intro a b c
    rfl

/-- C3: `LPop` on a non-empty sequence `x :: rest` returns the value `x` and
leaves exactly `rest`. -/
theorem LPop_removes_front (x : α) (rest : List α) :
    LPop ⟨x :: rest⟩ = (some x, ⟨rest⟩) := by
  rfl

/-- C4: `RPop` on a non-empty sequence `init ++ [x]` returns the value `x` and
leaves exactly `init`. -/
theorem RPop_removes_back (init : List α) (x : α) :
    RPop ⟨init ++ [x]⟩ = (some x, ⟨init⟩) := by
  simp [RPop, listBack, listRemoveBack]

/-- C5: `Index` is zero-based lookup without negative wrap-around: it returns
the element at position `index` when `0 ≤ index < length`, absent for every
other index (every negative one included), so it returns a value exactly when
`0 ≤ index < length`. -/
theorem Index_positional (sl : SafeList α) (index : Int) :
    (Index sl index).1 =
      (if h : 0 ≤ index ∧ index < (sl.innerList.length : Int)
        then some (sl.innerList.get ⟨index.toNat, by omega⟩) else none) ∧
    ((Index sl index).1.isSome = true ↔ 0 ≤ index ∧ index < (sl.innerList.length : Int)) := by
  have key : (Index sl index).1 =
      (if h : 0 ≤ index ∧ index < (sl.innerList.length : Int)
        then some (sl.innerList.get ⟨index.toNat, by omega⟩) else none) := by
    simp only [Index, Index_loop_eq, sub_zero]
    by_cases h : 0 ≤ index ∧ index < (sl.innerList.length : Int)
    · have hb : index.toNat < sl.innerList.length := by omega
      rw [dif_pos h, if_pos h.1, List.getElem?_eq_getElem hb]
      rfl
    · rw [dif_neg h]
      by_cases h0 : 0 ≤ index
      · have hb : sl.innerList.length ≤ index.toNat := by omega
        rw [if_pos h0, List.getElem?_eq_none hb]
      · rw [if_neg h0]
  refine ⟨key, ?_⟩
  rw [key]
  by_cases h : 0 ≤ index ∧ index < (sl.innerList.length : Int)
  · simp [h]
  · simp [h]

/-- C9: popping the empty sequence is a no-op: a new list is empty, `LPop` and
`RPop` on the empty sequence return absent and leave it empty, and `Len` is
then 0. -/
theorem pop_empty_absent :
    (NewSafeList : SafeList α).innerList = [] ∧
    LPop (NewSafeList : SafeList α) = (none, NewSafeList) ∧
    RPop (NewSafeList : SafeList α) = (none, NewSafeList) ∧
    (Len (LPop (NewSafeList : SafeList α)).2).1 = 0 ∧
    (Len (RPop (NewSafeList : SafeList α)).2).1 = 0 := by
  refine ⟨rfl, rfl, rfl, rfl, rfl⟩

/-- C10: `RPop` undoes a single `RPush`: pushing `x` at the back and popping
the back at once returns `x` and restores the sequence, hence its length. -/
theorem RPop_after_RPush (sl : SafeList α) (x : α) :
    RPop (RPush sl [x]).2 = (some x, sl) ∧
    (Len (RPop (RPush sl [x]).2).2).1 = (sl.innerList.length : Int) := by
  have h : RPop (RPush sl [x]).2 = (some x, sl) := by
    simp [RPop, RPush, RPush.loop, listPushBack, listBack, listRemoveBack]
  rw [h]
  exact ⟨rfl, rfl⟩

/-! ## Range -/

/-- C6: for `0 ≤ start` (and a list whose length fits Go's `int`), `Range`
returns the clamped closed interval: the sequence after dropping `start`
elements and taking `end - start + 1`, whose `k`-th element is the element at
position `start + k`, which holds `min end (n - 1) - start + 1` elements when
`start < n` and `start ≤ end`, and is empty when `start ≥ n` or `end < start`. -/
theorem Range_clamped_interval (sl : SafeList α) (start end_ : Int) (hstart : 0 ≤ start)
    (hlen : (sl.innerList.length : Int) < 9223372036854775808) :
    ∃ r : List α, (Range sl start end_).1 = Except.ok r ∧
      r = (sl.innerList.drop start.toNat).take (end_ - start + 1).toNat ∧
      (∀ k : Nat, k < r.length → r[k]? = sl.innerList[start.toNat + k]?) ∧
      (start < (sl.innerList.length : Int) → start ≤ end_ →
        (r.length : Int) = min end_ ((sl.innerList.length : Int) - 1) - start + 1) ∧
      (start ≥ (sl.innerList.length : Int) ∨ end_ < start → r = []) := by
  refine ⟨_, Range_ok_of_nonneg sl start end_ hstart hlen, rfl, ?_, ?_, ?_⟩
  · intro k hk
    rw [List.length_take] at hk
    rw [List.getElem?_take_of_lt (by omega), List.getElem?_drop]
  · intro h1 h2
    rw [List.length_take, List.length_drop]
    omega
  · intro h
    rcases h with h | h
    · have hd : sl.innerList.drop start.toNat = [] := List.drop_of_length_le (by omega)
      simp [hd]
    · have ht : (end_ - start + 1).toNat = 0 := by omega
      simp [ht]

/-- Witness of C6, on `[a, b, c, d]`: `Range 1 10 = [b, c, d]`,
`Range 5 6 = []` and `Range 2 1 = []`. -/
theorem Range_clamped_interval_witness :
    (∃ r : List String, (Range ⟨["a", "b", "c", "d"]⟩ 1 10).1 = Except.ok r ∧
      r = ((["a", "b", "c", "d"] : List String).drop (1 : Int).toNat).take
        ((10 : Int) - 1 + 1).toNat ∧
      (∀ k : Nat, k < r.length →
        r[k]? = (["a", "b", "c", "d"] : List String)[(1 : Int).toNat + k]?) ∧
      ((1 : Int) < ((["a", "b", "c", "d"] : List String).length : Int) → (1 : Int) ≤ 10 →
        (r.length : Int) =
          min 10 ((((["a", "b", "c", "d"] : List String).length : Int)) - 1) - 1 + 1) ∧
      ((1 : Int) ≥ ((["a", "b", "c", "d"] : List String).length : Int) ∨ (10 : Int) < 1 →
        r = [])) ∧
    (Range (⟨["a", "b", "c", "d"]⟩ : SafeList String) 1 10).1 = Except.ok ["b", "c", "d"] ∧
    (Range (⟨["a", "b", "c", "d"]⟩ : SafeList String) 5 6).1 = Except.ok [] ∧
    (Range (⟨["a", "b", "c", "d"]⟩ : SafeList String) 2 1).1 = Except.ok [] :=
  ⟨Range_clamped_interval ⟨["a", "b", "c", "d"]⟩ 1 10 (by decide) (by decide),
    rfl, rfl, rfl⟩

/-- Counterexample to C7 as stated: on `[a, b, c]`, `Range (-2) 1` returns the
two elements `[a, b]`, while the stated policy and the capacity computed in
advance both give 4. -/
theorem Range_length_policy_fails :
    (Range (⟨["a", "b", "c"]⟩ : SafeList String) (-2) 1).1 = Except.ok ["a", "b"] ∧
    rangePolicyLength 3 (-2) 1 = 4 ∧
    Range.resultsize 3 (-2) 1 = 4 ∧
    ¬ (∀ (sl : SafeList String) (start end_ : Int) (r : List String),
        (Range sl start end_).1 = Except.ok r →
        (r.length : Int) = rangePolicyLength (sl.innerList.length : Int) start end_) := by
  refine ⟨rfl, by decide, by decide, ?_⟩
  intro h
  have h1 : (Range (⟨["a", "b", "c"]⟩ : SafeList String) (-2) 1).1 = Except.ok ["a", "b"] := rfl
  have h2 := h ⟨["a", "b", "c"]⟩ (-2) 1 ["a", "b"] h1
  revert h2
  decide

/-- C7, amended: on a list whose length `n` fits Go's `int`, for `0 ≤ start`
`Range` returns a result whose length is the stated policy (`0` if
`start ≥ n` or `end < start`, else `n - start` if `end ≥ n`, else
`end - start + 1`), and past the early return the size computed in advance
(`resultsize`) is that length; and for every `start` and `end`, negative ones
included, a result that `Range` returns has the length the policy gives for
`max start 0`. -/
theorem Range_length_policy (sl : SafeList α) (start end_ : Int)
    (hlen : (sl.innerList.length : Int) < 9223372036854775808) :
    (0 ≤ start → ∃ r : List α, (Range sl start end_).1 = Except.ok r ∧
      (r.length : Int) = rangePolicyLength (sl.innerList.length : Int) start end_ ∧
      (Range.isEmpty (listLen sl.innerList) start end_ = false →
        Range.resultsize (listLen sl.innerList) start end_ = (r.length : Int))) ∧
    (∀ r : List α, (Range sl start end_).1 = Except.ok r →
      (r.length : Int) = rangePolicyLength (sl.innerList.length : Int) (max start 0) end_) := by
  have hgen : ∀ r : List α, (Range sl start end_).1 = Except.ok r →
      (r.length : Int) =
        rangePolicyLength (sl.innerList.length : Int) (max start 0) end_ := by
    intro r hr
    rw [Range_eq_of_ok sl start end_ r hr, List.length_take, List.length_drop]
    unfold rangePolicyLength
    split_ifs <;> omega
  refine ⟨?_, hgen⟩
  intro hstart
  have hmax : max start 0 = start := by omega
  refine ⟨_, Range_ok_of_nonneg sl start end_ hstart hlen, ?_, ?_⟩
  · have h := hgen _ (Range_ok_of_nonneg sl start end_ hstart hlen)
    rw [hmax] at h
    exact h
  · intro hemp
    have hsz := (Range_resultsize_of_nonneg (listLen sl.innerList) start end_ hstart
      (by simpa [listLen] using hlen) hemp).1
    simp only [Range.isEmpty, listLen, Bool.or_eq_false_iff, decide_eq_false_iff_not] at hemp
    rw [hsz, List.length_take, List.length_drop]
    simp only [listLen]
    split_ifs <;> omega

/-- Witness of the amended C7 on `[a, b, c]` with `start = 1`, `end = 5`. -/
theorem Range_length_policy_witness :
    (((["a", "b", "c"] : List String).length : Int) < 9223372036854775808) ∧
    ((0 : Int) ≤ 1) ∧
    (∃ r : List String, (Range ⟨["a", "b", "c"]⟩ 1 5).1 = Except.ok r ∧
      (r.length : Int) =
        rangePolicyLength ((["a", "b", "c"] : List String).length : Int) 1 5 ∧
      (Range.isEmpty (listLen (["a", "b", "c"] : List String)) 1 5 = false →
        Range.resultsize (listLen (["a", "b", "c"] : List String)) 1 5 = (r.length : Int))) :=
  ⟨by decide, by decide,
    (Range_length_policy ⟨["a", "b", "c"]⟩ 1 5 (by decide)).1 (by decide)⟩

/-- C8, evaluated where it fails: with `start` the smallest `int`, the
capacity `Range` computes wraps to a negative number and `make` panics, on the
empty list (capacity `length - start`) and on `[a]` (capacity
`end - start + 1`). -/
theorem Range_panics_on_min_start :
    Range.resultsize 0 minInt 0 = -9223372036854775808 ∧
    (Range (NewSafeList : SafeList String) minInt 0).1 =
      Except.error Panic.makesliceCapOutOfRange ∧
    Range.resultsize 1 minInt 0 = -9223372036854775807 ∧
    (Range (⟨["a"]⟩ : SafeList String) minInt 0).1 =
      Except.error Panic.makesliceCapOutOfRange := by
  exact ⟨by decide, rfl, by decide, rfl⟩

/-! ## Sequences of calls -/

/-- C11: length accounting over any history: after any finite sequence of
calls on a new list, `Len` returns `N - M`, with `N` the number of values
passed to pushes and `M` the number of pops that returned a value; so `M ≤ N`
and `Len` is not negative. -/
theorem Len_accounts_for_history (ops : List (Op α)) :
    (Len (runHistory NewSafeList ops).1).1 =
      ((runHistory (NewSafeList : SafeList α) ops).2.1 : Int) -
        ((runHistory (NewSafeList : SafeList α) ops).2.2 : Int) ∧
    (runHistory (NewSafeList : SafeList α) ops).2.2 ≤
      (runHistory (NewSafeList : SafeList α) ops).2.1 ∧
    0 ≤ (Len (runHistory (NewSafeList : SafeList α) ops).1).1 := by
  have h := runHistory_length ops (NewSafeList : SafeList α)
  simp only [NewSafeList, List.length_nil, Nat.zero_add] at h
  simp only [Len, listLen, NewSafeList]
  omega

/-- C12: order preservation under back insertion: after successive `RPush`
calls on a new list, with `v1..vn` the batches concatenated in call order,
`Index i` returns the `i`-th of them for every `i < n`, and `Index n` returns
absent. -/
theorem Index_after_RPushAll (batches : List (List α)) :
    (∀ i : Nat, (Index (RPushAll NewSafeList batches) (i : Int)).1 =
      if h : i < batches.flatten.length then some (batches.flatten.get ⟨i, h⟩) else none) ∧
    (Index (RPushAll NewSafeList batches) (batches.flatten.length : Int)).1 = none := by
  have hl : (RPushAll (NewSafeList : SafeList α) batches).innerList = batches.flatten := by
    simp [RPushAll_eq, NewSafeList]
  have key : ∀ i : Nat, (Index (RPushAll (NewSafeList : SafeList α) batches) (i : Int)).1 =
      batches.flatten[i]? := by
    intro i
    simp [Index, Index_loop_eq, hl]
  refine ⟨?_, ?_⟩
  · intro i
    rw [key]
    by_cases h : i < batches.flatten.length
    · rw [dif_pos h, List.getElem?_eq_getElem h]
      rfl
    · rw [dif_neg h, List.getElem?_eq_none (by omega)]
  · rw [key, List.getElem?_eq_none (Nat.le_refl _)]

/-- C13: a batched `LPush` equals repeated single-value `LPush` calls: it
leaves the same sequence, a non-empty batch returns what the last single call
returns, and `LPush (xs ++ ys)` equals `LPush xs` followed by `LPush ys`. -/
theorem LPush_batch_eq_singles (sl : SafeList α) (values xs ys : List α) (v : α) :
    (LPush sl values).2 = LPushEach sl values ∧
    LPush sl (values ++ [v]) = LPush (LPushEach sl values) [v] ∧
    LPush sl (xs ++ ys) = LPush (LPush sl xs).2 ys := by
  refine ⟨?_, ?_, ?_⟩
  · simp [LPush, LPush_loop_eq, LPushEach_eq]
  · simp [LPush, LPush_loop_eq, LPushEach_eq]
  · simp [LPush, LPush_loop_eq]

/-- C14: the read operations do not change the sequence: after `Len`,
`Index` or `Range`, with any arguments, the state is the one before the
call. -/
theorem reads_leave_sequence (sl : SafeList α) (index start end_ : Int) :
    (Len sl).2 = sl ∧ (Index sl index).2 = sl ∧ (Range sl start end_).2 = sl := by
  exact ⟨rfl, rfl, Range_state_eq sl start end_⟩

/-- C15: the end-to-end scenario: from a new list, `RPush a b` returns 2;
`LPush z` returns 3 and leaves `[z, a, b]`; `Index 0` returns `z`; `RPop`
returns `b` and leaves `[z, a]`, of length 2; `Range 0 10` returns `[z, a]`. -/
theorem scenario_end_to_end :
    RPush (NewSafeList : SafeList String) ["a", "b"] = (2, ⟨["a", "b"]⟩) ∧
    LPush (⟨["a", "b"]⟩ : SafeList String) ["z"] = (3, ⟨["z", "a", "b"]⟩) ∧
    Index (⟨["z", "a", "b"]⟩ : SafeList String) 0 = (some "z", ⟨["z", "a", "b"]⟩) ∧
    RPop (⟨["z", "a", "b"]⟩ : SafeList String) = (some "b", ⟨["z", "a"]⟩) ∧
    Len (⟨["z", "a"]⟩ : SafeList String) = (2, ⟨["z", "a"]⟩) ∧
    Range (⟨["z", "a"]⟩ : SafeList String) 0 10 = (Except.ok ["z", "a"], ⟨["z", "a"]⟩) := by
  exact ⟨rfl, rfl, rfl, rfl, rfl, rfl⟩

/-- C17: a negative `start` behaves like `start = 0`: on a list whose length
fits Go's `int`, a result `r` that `Range start end` returns for `start < 0`
is the result of `Range 0 end`, namely the elements at positions
`0 .. min end (n-1)` (the first `end + 1` elements), and is empty when
`end < 0`; positions are never counted from the back. -/
theorem Range_negative_start (sl : SafeList α) (start end_ : Int) (r : List α)
    (hneg : start < 0) (hlen : (sl.innerList.length : Int) < 9223372036854775808)
    (hr : (Range sl start end_).1 = Except.ok r) :
    (Range sl 0 end_).1 = Except.ok r ∧
    r = sl.innerList.take (end_ + 1).toNat ∧
    (end_ < 0 → r = []) := by
  have hmax : max start 0 = 0 := by omega
  have h0 : start.toNat = 0 := by omega
  have hr2 := Range_eq_of_ok sl start end_ r hr
  rw [hmax, h0, List.drop_zero, sub_zero] at hr2
  refine ⟨?_, hr2, ?_⟩
  · rw [Range_ok_of_nonneg sl 0 end_ (le_refl 0) hlen, hr2]
    simp
  · intro hend
    have ht : (end_ + 1).toNat = 0 := by omega
    rw [hr2, ht, List.take_zero]

/-- Witness of C17 on `[a, b, c]`: `Range (-2) 1` returns `[a, b]`, as
`Range 0 1` does, and `Range (-1) (-1)` is empty, not `[c]`. -/
theorem Range_negative_start_witness :
    ((-2 : Int) < 0) ∧
    (((["a", "b", "c"] : List String).length : Int) < 9223372036854775808) ∧
    (Range (⟨["a", "b", "c"]⟩ : SafeList String) (-2) 1).1 = Except.ok ["a", "b"] ∧
    ((Range (⟨["a", "b", "c"]⟩ : SafeList String) 0 1).1 = Except.ok ["a", "b"] ∧
      ["a", "b"] = (["a", "b", "c"] : List String).take ((1 : Int) + 1).toNat ∧
      ((1 : Int) < 0 → (["a", "b"] : List String) = [])) ∧
    (Range (⟨["a", "b", "c"]⟩ : SafeList String) (-1) (-1)).1 = Except.ok [] :=
  ⟨by decide, by decide, rfl,
    Range_negative_start ⟨["a", "b", "c"]⟩ (-2) 1 ["a", "b"] (by decide) (by decide) (by rfl),
    rfl⟩

/-- C18: `RPush` followed by `LPop` is a FIFO queue: after `RPush values` on a
new list, as many `LPop` calls as there are values return them in order and
leave the list empty, and one more `LPop` returns absent; after `LPush values`
the same `LPop` calls return the values in reverse order. -/
theorem RPush_LPop_fifo (values : List α) :
    LPopN values.length (RPush NewSafeList values).2 = (values.map some, NewSafeList) ∧
    (LPop (LPopN values.length (RPush NewSafeList values).2).2).1 = none ∧
    LPopN values.length (LPush NewSafeList values).2 =
      (values.reverse.map some, NewSafeList) := by
  have h1 : LPopN values.length (RPush NewSafeList values).2 =
      (values.map some, NewSafeList) := by
    simpa [RPush, RPush_loop_eq, NewSafeList] using LPopN_eq values
  have h2 : LPopN values.length (LPush NewSafeList values).2 =
      (values.reverse.map some, NewSafeList) := by
    simpa [LPush, LPush_loop_eq, NewSafeList] using LPopN_eq values.reverse
  refine ⟨h1, ?_, h2⟩
  rw [h1]
  rfl

/-- C19: `Index` and `Range` agree on every position: for every integer `i`,
`Range i i` returns `[v]` when `Index i` returns a value `v`, and the empty
sequence when `Index i` returns absent. -/
theorem Range_single_eq_Index (sl : SafeList α) (i : Int) :
    (Range sl i i).1 = Except.ok (Index sl i).1.toList ∧
    (∀ v : α, (Index sl i).1 = some v → (Range sl i i).1 = Except.ok [v]) ∧
    ((Index sl i).1 = none → (Range sl i i).1 = Except.ok []) := by
  have key : (Range sl i i).1 = Except.ok (Index sl i).1.toList := by
    have hidx : (Index sl i).1 = if 0 ≤ i then sl.innerList[i.toNat]? else none := by
      simp [Index, Index_loop_eq]
    cases hemp : Range.isEmpty (listLen sl.innerList) i i with
    | true =>
      simp only [Range.isEmpty, listLen, Bool.or_eq_true, decide_eq_true_eq] at hemp
      have hge : (sl.innerList.length : Int) ≤ i := by omega
      have hnone : (Index sl i).1 = none := by
        rw [hidx]
        by_cases h0 : 0 ≤ i
        · rw [if_pos h0, List.getElem?_eq_none (by omega)]
        · rw [if_neg h0]
      rw [Range_isEmpty_eq_true sl i i (by simp [Range.isEmpty, listLen, hge]), hnone]
      rfl
    | false =>
      have hemp2 := hemp
      simp only [Range.isEmpty, listLen, Bool.or_eq_false_iff, decide_eq_false_iff_not] at hemp2
      have hlt : i < (sl.innerList.length : Int) := by omega
      have hsz : Range.resultsize (listLen sl.innerList) i i = 1 :=
        Range_resultsize_single _ _ (by simpa [listLen] using hlt)
      rw [Range_isEmpty_eq_false sl i i hemp, hsz, if_neg (by decide), hidx]
      by_cases h0 : 0 ≤ i
      · have hk : i.toNat < sl.innerList.length := by omega
        have ht : (i - max i 0 + 1).toNat = 1 := by omega
        rw [if_pos h0, ht, List.take_one_drop_eq_of_lt_length hk,
          List.getElem?_eq_getElem hk]
        rfl
      · have ht : (i - max i 0 + 1).toNat = 0 := by omega
        rw [if_neg h0, ht, List.take_zero]
        rfl
  refine ⟨key, ?_, ?_⟩
  · intro v hv
    rw [key, hv]
    rfl
  · intro hn
    rw [key, hn]
    rfl

end SafeList

/-! ## The mutex -/

namespace GuardedSafeList

variable {α β : Type}

theorem critical_of_free (g : GuardedSafeList α) (hfree : g.mutex.held = false)
    (body : SafeList α → β × SafeList α) :
    g.critical body =
      some ((body ⟨g.innerList⟩).1,
        ⟨(body ⟨g.innerList⟩).2.innerList, ⟨false, g.mutex.acquisitions + 1⟩⟩) := by
  simp [critical, Mutex.Lock, Mutex.Unlock, hfree]

/-- C20: no call leaves the lock held: started with the mutex free, each of
`LPop`, `RPop`, `LPush`, `RPush`, `Len`, `Index` and `Range` returns, with the
result and the sequence of its body, the mutex free again and exactly one more
acquisition counted. -/
theorem calls_release_mutex (g : GuardedSafeList α) (hfree : g.mutex.held = false)
    (values : List α) (index start end_ : Int) :
    LPop g = some ((SafeList.LPop ⟨g.innerList⟩).1,
      ⟨(SafeList.LPop ⟨g.innerList⟩).2.innerList, ⟨false, g.mutex.acquisitions + 1⟩⟩) ∧
    RPop g = some ((SafeList.RPop ⟨g.innerList⟩).1,
      ⟨(SafeList.RPop ⟨g.innerList⟩).2.innerList, ⟨false, g.mutex.acquisitions + 1⟩⟩) ∧
    LPush g values = some ((SafeList.LPush ⟨g.innerList⟩ values).1,
      ⟨(SafeList.LPush ⟨g.innerList⟩ values).2.innerList,
        ⟨false, g.mutex.acquisitions + 1⟩⟩) ∧
    RPush g values = some ((SafeList.RPush ⟨g.innerList⟩ values).1,
      ⟨(SafeList.RPush ⟨g.innerList⟩ values).2.innerList,
        ⟨false, g.mutex.acquisitions + 1⟩⟩) ∧
    Len g = some ((SafeList.Len ⟨g.innerList⟩).1,
      ⟨(SafeList.Len ⟨g.innerList⟩).2.innerList, ⟨false, g.mutex.acquisitions + 1⟩⟩) ∧
    Index g index = some ((SafeList.Index ⟨g.innerList⟩ index).1,
      ⟨(SafeList.Index ⟨g.innerList⟩ index).2.innerList,
        ⟨false, g.mutex.acquisitions + 1⟩⟩) ∧
    Range g start end_ = some ((SafeList.Range ⟨g.innerList⟩ start end_).1,
      ⟨(SafeList.Range ⟨g.innerList⟩ start end_).2.innerList,
        ⟨false, g.mutex.acquisitions + 1⟩⟩) := by
  exact ⟨critical_of_free g hfree _, critical_of_free g hfree _, critical_of_free g hfree _,
    critical_of_free g hfree _, critical_of_free g hfree _, critical_of_free g hfree _,
    critical_of_free g hfree _⟩

/-- Witness of C20 on `[a, b]` with a free mutex: `Index 0` (the scan's early
exit), `Range 5 6` (the early return) and `Range` with the smallest `start`
(the panic of `make`) each end with the mutex free and one acquisition. -/
theorem calls_release_mutex_witness :
    (⟨["a", "b"], ⟨false, 0⟩⟩ : GuardedSafeList String).mutex.held = false ∧
    Index (⟨["a", "b"], ⟨false, 0⟩⟩ : GuardedSafeList String) 0 =
      some (some "a", ⟨["a", "b"], ⟨false, 1⟩⟩) ∧
    Range (⟨["a", "b"], ⟨false, 0⟩⟩ : GuardedSafeList String) 5 6 =
      some (Except.ok [], ⟨["a", "b"], ⟨false, 1⟩⟩) ∧
    Range (⟨["a", "b"], ⟨false, 0⟩⟩ : GuardedSafeList String) minInt 0 =
      some (Except.error Panic.makesliceCapOutOfRange, ⟨["a", "b"], ⟨false, 1⟩⟩) :=
  ⟨rfl,
    (calls_release_mutex ⟨["a", "b"], ⟨false, 0⟩⟩ rfl [] 0 5 6).2.2.2.2.2.1,
    (calls_release_mutex ⟨["a", "b"], ⟨false, 0⟩⟩ rfl [] 0 5 6).2.2.2.2.2.2,
    (calls_release_mutex ⟨["a", "b"], ⟨false, 0⟩⟩ rfl [] 0 minInt 0).2.2.2.2.2.2⟩

end GuardedSafeList

end GoRedis
